import Mathlib

/-!
Verification development for the grindoreiro analysis pipeline.

Python strings and byte strings are modelled as lists of natural numbers
(Unicode code points, respectively byte values).  Wall-clock timestamps,
log output and absolute filesystem paths are elided; where a component
reads or writes the filesystem, the relevant file contents appear as
explicit values.  Each definition is a shallow embedding of the function
of the same name in the repository; definitions come first, theorems
follow.
-/

namespace Grindoreiro

/-- Model of a Python str (list of Unicode code points) and of bytes
(list of byte values). -/
abbrev PyStr := List Nat

/-- Convert a Lean string literal into the model representation. -/
def ofStr (s : String) : PyStr := s.data.map Char.toNat

/-- ASCII lower-casing of one code point, modelling str.lower on the
ASCII range (all signature and pattern strings in the program are
ASCII; the non-ASCII case mapping of Python is not exercised). -/
def lowerChar (c : Nat) : Nat :=
  if 65 ≤ c ∧ c ≤ 90 then c + 32 else c

/-- Model of str.lower (ASCII range). -/
def lowerStr (s : PyStr) : PyStr := s.map lowerChar

/-- Does hay start with needle? -/
def startsWithSub (needle hay : PyStr) : Bool :=
  match needle, hay with
  | [], _ => true
  | _ :: _, [] => false
  | a :: as, b :: bs => a == b && startsWithSub as bs

/-- Model of the Python substring test needle in hay. -/
def containsSub (needle : PyStr) : PyStr → Bool
  | [] => startsWithSub needle []
  | hay@(_ :: rest) => startsWithSub needle hay || containsSub needle rest

/-- Worker for dedupFirst, carrying the set of already seen elements. -/
def dedupFirstGo [DecidableEq α] (seen : List α) : List α → List α
  | [] => []
  | x :: xs => if x ∈ seen then dedupFirstGo seen xs else x :: dedupFirstGo (x :: seen) xs

/-- Model of Python dict.fromkeys based deduplication and of repeated
insertion into a set: keep the first occurrence of each element, in
order of first appearance. -/
def dedupFirst [DecidableEq α] (l : List α) : List α := dedupFirstGo [] l

/-! ## Binary string scanner (analyzer.py, class StringExtractor)

The source reads the file into a byte string and applies two regex
scans; the model takes the byte content directly.  The write of the
companion .strings output file is elided; the returned list is the
modelled value.  The character class of both regex patterns is
A-Za-z0-9 and the punctuation +/=-:. ,_$%()[]<> and apostrophe. -/

/-- Characters of the ascii_chars and unicode_chars class of
StringExtractor (code points; 39 is the apostrophe). -/
def isStringChar (c : Nat) : Bool :=
  (65 ≤ c && c ≤ 90) || (97 ≤ c && c ≤ 122) || (48 ≤ c && c ≤ 57) ||
  c == 43 || c == 47 || c == 61 || c == 45 || c == 58 || c == 46 || c == 32 ||
  c == 44 || c == 95 || c == 36 || c == 37 || c == 39 || c == 40 || c == 41 ||
  c == 91 || c == 93 || c == 60 || c == 62

/-- Worker splitting a list into maximal runs of characters satisfying p;
cur accumulates the current run in reverse. -/
def runsGo (p : Nat → Bool) (cur : List Nat) : List Nat → List (List Nat)
  | [] => if cur.isEmpty then [] else [cur.reverse]
  | c :: cs =>
    if p c then runsGo p (c :: cur) cs
    else if cur.isEmpty then runsGo p [] cs
    else cur.reverse :: runsGo p [] cs

/-- Maximal runs of characters satisfying p, in order. -/
def maximalRuns (p : Nat → Bool) (l : List Nat) : List (List Nat) := runsGo p [] l

/-- Model of re.findall for a pattern of the shape [class]{m,}: all
maximal runs of class characters of length at least m, left to right. -/
def findallRuns (p : Nat → Bool) (minLength : Nat) (l : List Nat) : List (List Nat) :=
  (maximalRuns p l).filter (fun r => minLength ≤ r.length)

/-- ASCII whitespace stripped by str.strip (space, tab, newline,
carriage return, vertical tab, form feed). -/
def isPySpace (c : Nat) : Bool :=
  c == 32 || c == 9 || c == 10 || c == 13 || c == 11 || c == 12

/-- Model of str.strip: drop leading and trailing whitespace. -/
def stripStr (s : PyStr) : PyStr :=
  ((s.dropWhile isPySpace).reverse.dropWhile isPySpace).reverse

/-- Model of bytes.decode with the ascii codec and errors=ignore:
bytes above 127 are dropped, the rest map to themselves. -/
def asciiDecodeIgnore (data : List Nat) : PyStr := data.filter (fun c => c < 128)

/-- Little-endian 16-bit code units of a byte string; a trailing odd
byte is dropped (errors=ignore). -/
def utf16UnitsLE : List Nat → List Nat
  | a :: b :: rest => (a + 256 * b) :: utf16UnitsLE rest
  | _ => []

/-- Big-endian 16-bit code units of a byte string; a trailing odd byte
is dropped (errors=ignore). -/
def utf16UnitsBE : List Nat → List Nat
  | a :: b :: rest => (256 * a + b) :: utf16UnitsBE rest
  | _ => []

/-- Combine surrogate pairs into code points; unpaired surrogates are
dropped (errors=ignore). -/
def combineSurrogates : List Nat → List Nat
  | [] => []
  | [u] =>
    if (55296 ≤ u && u ≤ 56319) || (56320 ≤ u && u ≤ 57343) then [] else [u]
  | u :: v :: rest =>
    if 55296 ≤ u && u ≤ 56319 then
      if 56320 ≤ v && v ≤ 57343 then
        (65536 + (u - 55296) * 1024 + (v - 56320)) :: combineSurrogates rest
      else combineSurrogates (v :: rest)
    else if 56320 ≤ u && u ≤ 57343 then combineSurrogates (v :: rest)
    else u :: combineSurrogates (v :: rest)
termination_by l => l.length
decreasing_by all_goals simp [List.length_cons] <;> omega

/-- Model of bytes.decode with the utf-16 codec and errors=ignore: a
leading byte-order mark selects the endianness and is stripped,
otherwise the platform order (little-endian here) is assumed. -/
def utf16DecodeIgnore (data : List Nat) : List Nat :=
  match data with
  | 255 :: 254 :: rest => combineSurrogates (utf16UnitsLE rest)
  | 254 :: 255 :: rest => combineSurrogates (utf16UnitsBE rest)
  | _ => combineSurrogates (utf16UnitsLE data)

/-- Candidate strings of StringExtractor.extract_strings before
deduplication: the stripped ASCII-pass matches followed by the stripped
UTF-16-pass matches, each kept only when nonempty after stripping. -/
def extractCandidates (data : List Nat) (minLength : Nat) : List PyStr :=
  ((findallRuns isStringChar minLength data).map
      (fun m => stripStr (asciiDecodeIgnore m))).filter (fun s => !s.isEmpty) ++
  ((findallRuns isStringChar minLength (utf16DecodeIgnore data)).map
      stripStr).filter (fun s => !s.isEmpty)

/-- Model of StringExtractor.extract_strings on byte content data with
the configured minimum length: both scanning passes, then duplicate
removal preserving the first occurrence. -/
def extract_strings (data : List Nat) (minLength : Nat) : List PyStr :=
  dedupFirst (extractCandidates data minLength)

/-! ## URL classifier (analyzer.py, class URLAnalyzer)

The Python lookups iterate over a set of URL strings; the set is
modelled as a list of its elements in some iteration order.  The
properties proved about the lookups are order-insensitive. -/

/-- Model of URLAnalyzer.find_cnc_url: return the first URL containing
the literal substring 5050/index.php, or None. -/
def find_cnc_url (urls : List PyStr) : Option PyStr :=
  urls.find? (fun url => containsSub (ofStr "5050/index.php") url)

/-- Model of URLAnalyzer.find_download_url: return the first URL
containing the pattern case-insensitively, or None (the source default
for the pattern is iso). -/
def find_download_url (urls : List PyStr) (pattern : PyStr) : Option PyStr :=
  urls.find? (fun url => containsSub (lowerStr pattern) (lowerStr url))

/-! ## Two-pass base64 decode (iso_handler.py, class ISODownloader)

base64.b64decode is modelled with its default validate=False
behaviour: characters outside the base64 alphabet and the padding
character are discarded before decoding, and only a residual length
or padding mismatch fails.  Padding that is not a trailing block of
= characters is modelled as a failure; this case is exercised by no
theorem below. -/

/-- Character of the base64 alphabet for a six-bit value. -/
def b64chr (v : Nat) : Nat :=
  if v < 26 then 65 + v
  else if v < 52 then 97 + (v - 26)
  else if v < 62 then 48 + (v - 52)
  else if v = 62 then 43 else 47

/-- Six-bit value of a base64 alphabet character, none otherwise. -/
def b64index (c : Nat) : Option Nat :=
  if 65 ≤ c ∧ c ≤ 90 then some (c - 65)
  else if 97 ≤ c ∧ c ≤ 122 then some (c - 97 + 26)
  else if 48 ≤ c ∧ c ≤ 57 then some (c - 48 + 52)
  else if c = 43 then some 62
  else if c = 47 then some 63
  else none

/-- Model of base64.b64encode on a byte string (61 is the padding
character =). -/
def b64encode : List Nat → List Nat
  | [] => []
  | [a] => [b64chr (a / 4), b64chr (a % 4 * 16), 61, 61]
  | [a, b] => [b64chr (a / 4), b64chr (a % 4 * 16 + b / 16), b64chr (b % 16 * 4), 61]
  | a :: b :: c :: rest =>
      b64chr (a / 4) :: b64chr (a % 4 * 16 + b / 16) ::
      b64chr (b % 16 * 4 + c / 64) :: b64chr (c % 64) :: b64encode rest

/-- Data characters of b64encode, without the trailing padding. -/
def encodeData : List Nat → List Nat
  | [] => []
  | [a] => [b64chr (a / 4), b64chr (a % 4 * 16)]
  | [a, b] => [b64chr (a / 4), b64chr (a % 4 * 16 + b / 16), b64chr (b % 16 * 4)]
  | a :: b :: c :: rest =>
      b64chr (a / 4) :: b64chr (a % 4 * 16 + b / 16) ::
      b64chr (b % 16 * 4 + c / 64) :: b64chr (c % 64) :: encodeData rest

/-- Number of padding characters produced by b64encode. -/
def padLen : List Nat → Nat
  | [] => 0
  | [_] => 2
  | [_, _] => 1
  | _ :: _ :: _ :: rest => padLen rest

/-- Six-bit value of a character known to be in the alphabet. -/
def sextet (c : Nat) : Nat := (b64index c).getD 0

/-- Decode groups of base64 data characters into bytes; a final group
of two or three characters yields one or two bytes. -/
def decodeQuads : List Nat → List Nat
  | a :: b :: c :: d :: rest =>
      (sextet a * 4 + sextet b / 16) ::
      (sextet b % 16 * 16 + sextet c / 4) ::
      (sextet c % 4 * 64 + sextet d) :: decodeQuads rest
  | [a, b] => [sextet a * 4 + sextet b / 16]
  | [a, b, c] => [sextet a * 4 + sextet b / 16, sextet b % 16 * 16 + sextet c / 4]
  | _ => []

/-- Model of base64.b64decode with validate=False: discard characters
outside the alphabet and padding, then require the discarded-free
residue to split into data characters plus exactly the padding that
completes the last quad. -/
def b64decode (s : List Nat) : Option (List Nat) :=
  let kept := s.filter (fun c => (b64index c).isSome || c == 61)
  let data := kept.takeWhile (fun c => c != 61)
  let pad := kept.drop data.length
  if pad.all (fun c => c == 61) = true ∧
      pad.length = (4 - data.length % 4) % 4 ∧ data.length % 4 ≠ 1
  then some (decodeQuads data)
  else none

/-- Model of ISODownloader.decode_iso on the text content of the
fetched file: base64-decode twice; the first component is the content
written to encoded.b64, the second the content written to decoded.zip.
A str passed to b64decode is first ASCII-encoded, which fails on
non-ASCII code points.  A failure of either pass raises in the source
and is none here. -/
def decode_iso (fileText : PyStr) : Option (List Nat × List Nat) :=
  if fileText.any (fun c => 128 ≤ c) then none
  else
    match b64decode fileText with
    | none => none
    | some d1 =>
      match b64decode d1 with
      | none => none
      | some d2 => some (d1, d2)

/-- Modelled from the spec: a string is valid base64 in the strict
sense of the claim when it is data characters from the base64 alphabet
followed by at most two padding characters, with total length a
multiple of four.  Used only to state the refutation; the code itself
uses the lenient decoder above. -/
def isStrictBase64 (s : List Nat) : Bool :=
  let data := s.takeWhile (fun c => c != 61)
  let pad := s.drop data.length
  data.all (fun c => (b64index c).isSome) && pad.all (fun c => c == 61) &&
    decide (pad.length ≤ 2) && (s.length % 4 == 0)

/-! ## Pipeline engine (pipeline.py)

StageResult is modelled without its start and end wall-clock
timestamps and without the free-form metadata dictionary, which the
engine never inspects.  A pipeline step is modelled by its gate
predicate together with an execute operation returning the stage
result and the updated context (Python steps mutate the context in
place).  Exceptions escaping a step are not modelled: the propagation
policy of the program makes every concrete execute return a failed
result instead of raising. -/

/-- Processing stages (enum PipelineStage).  The constructor initStage
renders the INITIALIZE member and finalizeStage the FINALIZE member. -/
inductive PipelineStage where
  | initStage
  | extractZip
  | extractMsi
  | extractDll
  | analyzeStrings
  | analyzeUrls
  | processIso
  | finalizeStage
deriving DecidableEq

/-- Status of a pipeline stage (enum StageStatus). -/
inductive StageStatus where
  | pending
  | running
  | completed
  | failed
  | skipped
deriving DecidableEq

/-- Result of a pipeline stage execution (dataclass StageResult). -/
structure StageResult where
  stage : PipelineStage
  status : StageStatus
  success : Bool
  error_message : Option PyStr
  duration : Option Nat
  artifacts : List PyStr
deriving DecidableEq

/-- Payload library information recorded by ExtractDllStep.  The
source stores a dictionary with exactly these five keys, so the
recorded value is never an empty dictionary and its Python truthiness
coincides with presence. -/
structure DllInfo where
  original_path : PyStr
  copied_path : PyStr
  size : Nat
  name : PyStr
  sha256 : PyStr
deriving DecidableEq

/-- Fields of SampleMetadata read or written by the engine and the
summary generator; sample identity, hashes and network status are
elided. -/
structure SampleMetadata where
  dll_info : Option DllInfo
  strings_count : Nat
  urls_found : List PyStr
  cnc_url : Option PyStr
  download_url : Option PyStr
  stages : List StageResult
  threat_level : PyStr
  malware_family : PyStr
deriving DecidableEq

/-- Context for pipeline execution (class PipelineContext): the
accumulated stage results and the metadata record. -/
structure PipelineContext where
  stage_results : List StageResult
  metadata : SampleMetadata
deriving DecidableEq

/-- Model of PipelineContext.add_stage_result: append the result both
to the context list and to the metadata record. -/
def add_stage_result (ctx : PipelineContext) (r : StageResult) : PipelineContext :=
  { stage_results := ctx.stage_results ++ [r],
    metadata := { ctx.metadata with stages := ctx.metadata.stages ++ [r] } }

/-- Abstract pipeline step (class PipelineStep): the gate predicate
can_execute and the execute operation. -/
structure PipelineStep where
  can_execute : PipelineContext → Bool
  execute : PipelineContext → StageResult × PipelineContext

/-- Model of PipelineStep.create_result: the status is derived from the
success flag alone. -/
def create_result (stage : PipelineStage) (success : Bool)
    (error_message : Option PyStr) (artifacts : List PyStr)
    (duration : Option Nat) : StageResult :=
  { stage := stage
    status := if success then StageStatus.completed else StageStatus.failed
    success := success
    error_message := error_message
    duration := duration
    artifacts := artifacts }

/-- Model of the loop of AnalysisPipeline.execute: iterate the steps in
insertion order; a gated-out step leaves no trace; an executed step has
its result appended; a failed result whose stage is not PROCESS_ISO
stops the iteration. -/
def runSteps : List PipelineStep → PipelineContext → PipelineContext
  | [], ctx => ctx
  | step :: rest, ctx =>
    if step.can_execute ctx then
      if (step.execute ctx).1.success = false ∧
          (step.execute ctx).1.stage ≠ PipelineStage.processIso then
        add_stage_result (step.execute ctx).2 (step.execute ctx).1
      else runSteps rest (add_stage_result (step.execute ctx).2 (step.execute ctx).1)
    else runSteps rest ctx

/-- Model of AnalysisPipeline._generate_summary: the threat level and
family are a function of the accumulated metadata.  The human-readable
summary line is elided (it formats a floating-point duration). -/
def generate_summary (ctx : PipelineContext) : PipelineContext :=
  let m := ctx.metadata
  if m.dll_info.isSome ∧ m.urls_found ≠ [] then
    { ctx with metadata :=
        { m with threat_level := ofStr "high", malware_family := ofStr "Grandoreiro" } }
  else if m.urls_found ≠ [] then
    { ctx with metadata :=
        { m with threat_level := ofStr "medium", malware_family := ofStr "Suspicious" } }
  else
    { ctx with metadata :=
        { m with threat_level := ofStr "low", malware_family := ofStr "Unknown" } }

/-- Model of AnalysisPipeline.execute: run the loop, then finalize and
generate the summary (mark_completed only records wall-clock timing and
is elided). -/
def pipeline_execute (steps : List PipelineStep) (ctx : PipelineContext) : PipelineContext :=
  generate_summary (runSteps steps ctx)

/-- Validity of a recorded stage result: the status is derived from
the success flag and is never pending, running or skipped. -/
def resultStatusOk (r : StageResult) : Prop :=
  (r.status = StageStatus.completed ↔ r.success = true) ∧
  (r.status = StageStatus.failed ↔ r.success = false) ∧
  r.status ≠ StageStatus.pending ∧ r.status ≠ StageStatus.running ∧
  r.status ≠ StageStatus.skipped

/-! ## Session cleanup (core.py, cleanup_session_temp_dir)

The session temp directory is modelled by whether it exists, the list
of .debug marker files found by the recursive glob, whether the
manifest file exists, and the number of cleanup notes appended to the
manifest.  The rmtreeOk flag models whether the recursive deletion
succeeds; when it is false the raised exception is caught by the
source and only a warning is logged, which the model renders as the
warnedFailure outcome of a total function. -/

/-- Observable state of one session temp directory. -/
structure SessionDirState where
  dirExists : Bool
  debugFiles : List PyStr
  manifestExists : Bool
  manifestCleanupLines : Nat
deriving DecidableEq

/-- Outcome of one cleanup invocation. -/
inductive CleanupOutcome where
  | noDirectory
  | skippedDebug
  | removed
  | warnedFailure
deriving DecidableEq

/-- Model of cleanup_session_temp_dir: append a cleanup note to the
manifest, then skip when not forced and a .debug marker is present,
else recursively delete; a deletion failure is caught and logged. -/
def cleanup_session_temp_dir (st : SessionDirState) (rmtreeOk : Bool)
    (force : Bool) : SessionDirState × CleanupOutcome :=
  if st.dirExists = false then (st, CleanupOutcome.noDirectory)
  else
    let st1 := if st.manifestExists then
        { st with manifestCleanupLines := st.manifestCleanupLines + 1 }
      else st
    if force = false ∧ st1.debugFiles ≠ [] then (st1, CleanupOutcome.skippedDebug)
    else if rmtreeOk then
      ({ dirExists := false, debugFiles := [], manifestExists := false,
         manifestCleanupLines := 0 }, CleanupOutcome.removed)
    else (st1, CleanupOutcome.warnedFailure)

/-! ## URL cache path (core.py, get_cache_path)

The regex character class \w is modelled on the ASCII range; the
function joins config.cache_dir with the computed name, and only the
name component is modelled. -/

/-- ASCII word character of the regex class \w. -/
def isWordChar (c : Nat) : Bool :=
  (48 ≤ c && c ≤ 57) || (65 ≤ c && c ≤ 90) || (97 ≤ c && c ≤ 122) || c == 95

/-- One character of re.sub with the class of get_cache_path: word
characters, hyphen (45) and dot (46) are kept, everything else becomes
an underscore (95). -/
def sanitizeChar (c : Nat) : Nat :=
  if isWordChar c || c == 45 || c == 46 then c else 95

/-- Model of get_cache_path restricted to the produced file name:
sanitize the URL and truncate to 100 characters. -/
def get_cache_name (url : PyStr) : PyStr := (url.map sanitizeChar).take 100

/-- Modelled from the spec words of the claim: every non-word character
is replaced by an underscore, then the result is truncated to 100
characters.  Used only to compare the claim with the code. -/
def specCacheName (url : PyStr) : PyStr :=
  (url.map (fun c => if isWordChar c then c else 95)).take 100

/-! ## Secondary payload download (iso_handler.py, ISODownloader.download_iso)

The source writes response.text to a file opened in text mode with
utf-8 encoding (no newline translation on this platform).  The model
takes the decoded text of the response; for a response declared as
latin-1 the decoded text is the identity image of the body bytes. -/

/-- UTF-8 encoding of one code point. -/
def utf8EncodeChar (c : Nat) : List Nat :=
  if c < 128 then [c]
  else if c < 2048 then [192 + c / 64, 128 + c % 64]
  else if c < 65536 then [224 + c / 4096, 128 + c / 64 % 64, 128 + c % 64]
  else [240 + c / 262144, 128 + c / 4096 % 64, 128 + c / 64 % 64, 128 + c % 64]

/-- UTF-8 encoding of a string of code points. -/
def utf8Encode (s : List Nat) : List Nat := (s.map utf8EncodeChar).flatten

/-- Decoded text of a response whose charset is latin-1: every body
byte maps to the code point of the same value. -/
def latin1Decode (body : List Nat) : List Nat := body

/-- Model of url.rsplit with separator slash and one split, last
element: the segment after the last slash, or the whole string. -/
def lastSegment (url : PyStr) : PyStr :=
  ((url.reverse.takeWhile (fun c => c != 47)).reverse)

/-- Model of ISODownloader.download_iso on a successful fetch: the
output file name and the bytes written (the UTF-8 encoding of the
decoded response text). -/
def download_iso (url : PyStr) (text : List Nat) : PyStr × List Nat :=
  (lastSegment url, utf8Encode text)

/-! ## Malicious DLL selection (extractor.py, FileExtractor.find_dll_files)

The single regex of the source,
with pattern anchor CustomAction then BinaryKey then the entry point
signature VIPS0033939 inside one tag, is implemented below with its
greedy, backtracking, case-insensitive semantics.  The directory is
modelled by the script contents, the file names under the Binary
subfolder, and the names of .dll files found by the fallback glob. -/

/-- Case-insensitive literal match of a pattern at the front of the
text, returning the rest of the text. -/
def matchLitCI : PyStr → PyStr → Option PyStr
  | [], s => some s
  | _ :: _, [] => none
  | p :: ps, c :: cs => if lowerChar p == lowerChar c then matchLitCI ps cs else none

/-- Greedy star over characters other than the closing angle bracket
(62), longest first, with continuation k. -/
def starNoGt (k : PyStr → Option (PyStr × PyStr)) : PyStr → Option (PyStr × PyStr)
  | [] => k []
  | s@(c :: cs) =>
    if c == 62 then k s
    else
      match starNoGt k cs with
      | some r => some r
      | none => k s

/-- Greedy plus of characters other than the double quote (34) with
capture, longest first; acc holds the capture so far in reverse. -/
def capNoQuote (acc : PyStr) (k : PyStr → PyStr → Option (PyStr × PyStr)) :
    PyStr → Option (PyStr × PyStr)
  | [] => if acc.isEmpty then none else k acc.reverse []
  | s@(c :: cs) =>
    if c == 34 then (if acc.isEmpty then none else k acc.reverse s)
    else
      match capNoQuote (c :: acc) k cs with
      | some r => some r
      | none => k (c :: acc).reverse cs

/-- Match the CustomAction pattern of find_dll_files at the front of
the text: the captured BinaryKey value and the rest of the text after
the match. -/
def matchCustomAction (s : PyStr) : Option (PyStr × PyStr) :=
  match matchLitCI (ofStr "<CustomAction") s with
  | none => none
  | some r1 =>
    starNoGt (fun r2 =>
      match matchLitCI (ofStr "BinaryKey=\"") r2 with
      | none => none
      | some r3 =>
        capNoQuote [] (fun cap r4 =>
          match matchLitCI (ofStr "\"") r4 with
          | none => none
          | some r5 =>
            starNoGt (fun r6 =>
              match matchLitCI (ofStr "DllEntry=\"VIPS0033939\"") r6 with
              | none => none
              | some r7 => some (cap, r7)) r5) r3) r1

/-- Fuelled scanner of re.findall: try a match at every position, left
to right, continuing after each match. -/
def findallCAGo : Nat → PyStr → List PyStr
  | 0, _ => []
  | _ + 1, [] => []
  | fuel + 1, s@(_ :: tail) =>
    match matchCustomAction s with
    | some (cap, rest) => cap :: findallCAGo fuel rest
    | none => findallCAGo fuel tail

/-- Model of re.findall with the CustomAction pattern over one script
content: the list of captured BinaryKey values. -/
def findall_custom_actions (s : PyStr) : List PyStr := findallCAGo (s.length + 1) s

/-- Model of the malicious_binary_keys set of find_dll_files: captures
from every script, kept when nonempty and not the benign system action
binary, first occurrence order. -/
def maliciousKeys (wxsContents : List PyStr) : List PyStr :=
  dedupFirst (((wxsContents.map findall_custom_actions).flatten).filter
    (fun k => !k.isEmpty && !(lowerStr k == ofStr "aicustact.dll")))

/-- Observable content of the msi_output directory and its sibling
script directory, as read by find_dll_files. -/
structure MsiDirectory where
  wxsContents : List PyStr
  binaryNames : List PyStr
  dllNames : List PyStr

/-- Exclusion filter of find_dll_files: drop every file whose name
contains one of the patterns case-insensitively; an absent or empty
pattern list keeps everything. -/
def applyExclusion (excludePatterns : Option (List PyStr)) (files : List PyStr) :
    List PyStr :=
  match excludePatterns with
  | some pats =>
    if pats.isEmpty then files
    else files.filter (fun name => !(pats.any (fun p => containsSub (lowerStr p) (lowerStr name))))
  | none => files

/-- Model of FileExtractor.find_dll_files: resolve the signature-matched
binary keys against the Binary subfolder; fall back to the .dll glob
when that yields nothing; apply the exclusion filter.  File values are
the file names (the path prefix directory/Binary is constant). -/
def find_dll_files (d : MsiDirectory) (excludePatterns : Option (List PyStr)) :
    List PyStr :=
  let keys := maliciousKeys d.wxsContents
  let found := keys.filter (fun k => d.binaryNames.contains k)
  let files := if found.isEmpty then d.dllNames else found
  applyExclusion excludePatterns files

/-! ## Concrete fixtures used by the witnesses -/

/-- Metadata record with nothing recorded yet. -/
def emptyMetadata : SampleMetadata :=
  { dll_info := none, strings_count := 0, urls_found := [], cnc_url := none,
    download_url := none, stages := [], threat_level := ofStr "unknown",
    malware_family := ofStr "unknown" }

/-- Fresh context with no recorded results. -/
def ctx0 : PipelineContext := { stage_results := [], metadata := emptyMetadata }

/-- Successful result of the first fixture step. -/
def resA : StageResult := create_result PipelineStage.initStage true none [] none

/-- Failed, non-fault-tolerant result of the second fixture step. -/
def resB : StageResult :=
  create_result PipelineStage.extractZip false (some (ofStr "boom")) [] none

/-- Fixture step A: always executable, succeeds. -/
def stepA : PipelineStep :=
  { can_execute := fun _ => true, execute := fun ctx => (resA, ctx) }

/-- Fixture step B: always executable, fails fatally. -/
def stepB : PipelineStep :=
  { can_execute := fun _ => true, execute := fun ctx => (resB, ctx) }

/-- Fixture step C: always executable, succeeds; must never run after
B in the fixture pipeline. -/
def stepC : PipelineStep :=
  { can_execute := fun _ => true,
    execute := fun ctx =>
      (create_result PipelineStage.extractMsi true none [] none, ctx) }

/-- Session directory holding a retention marker. -/
def sessWithMarker : SessionDirState :=
  { dirExists := true, debugFiles := [ofStr "analysis.debug"],
    manifestExists := true, manifestCleanupLines := 0 }

/-- Installer script fixture: one action carrying the malicious entry
point signature referencing evil.bin, and one unrelated action
referencing benign.bin. -/
def wxsSample : PyStr :=
  ofStr "<CustomAction Id=\"a1\" BinaryKey=\"evil.bin\" DllEntry=\"VIPS0033939\"/><CustomAction Id=\"a2\" BinaryKey=\"benign.bin\" DllEntry=\"InstallHelper\"/>"

/-- Directory fixture for the selection witness: both referenced files
exist under Binary, and the fallback glob would find a legacy file. -/
def msiSample : MsiDirectory :=
  { wxsContents := [wxsSample],
    binaryNames := [ofStr "evil.bin", ofStr "benign.bin"],
    dllNames := [ofStr "legacy.dll"] }

/-! # Theorems -/

theorem startsWithSub_self_append (n post : PyStr) :
    startsWithSub n (n ++ post) = true := by
  induction n with
  | nil => rfl
  | cons a as ih => simp [startsWithSub, ih]

theorem containsSub_of_append (needle pre post : PyStr) :
    containsSub needle (pre ++ needle ++ post) = true := by
  induction pre with
  | nil =>
    simp only [List.nil_append]
    cases needle with
    | nil => cases post with
      | nil => rfl
      | cons b bs => simp [containsSub, startsWithSub]
    | cons a as =>
      show (startsWithSub (a :: as) ((a :: as) ++ post) ||
        containsSub (a :: as) (as ++ post)) = true
      rw [startsWithSub_self_append]
      simp
  | cons p ps ih =>
    show (startsWithSub needle ((p :: ps) ++ needle ++ post) ||
      containsSub needle (ps ++ needle ++ post)) = true
    rw [ih]
    simp

theorem dedupFirstGo_mem [DecidableEq α] (seen : List α) (l : List α) (a : α) :
    a ∈ dedupFirstGo seen l ↔ a ∈ l ∧ a ∉ seen := by
  induction l generalizing seen with
  | nil => simp [dedupFirstGo]
  | cons x xs ih =>
    simp only [dedupFirstGo]
    split
    · rename_i hx
      rw [ih]
      constructor
      · rintro ⟨h1, h2⟩; exact ⟨List.mem_cons_of_mem _ h1, h2⟩
      · rintro ⟨h1, h2⟩
        rcases List.mem_cons.mp h1 with rfl | h1
        · exact absurd hx h2
        · exact ⟨h1, h2⟩
    · rename_i hx
      constructor
      · intro h
        rcases List.mem_cons.mp h with rfl | h
        · exact ⟨List.mem_cons_self _ _, hx⟩
        · rw [ih] at h
          exact ⟨List.mem_cons_of_mem _ h.1,
            fun hc => h.2 (List.mem_cons_of_mem _ hc)⟩
      · rintro ⟨h1, h2⟩
        rcases List.mem_cons.mp h1 with rfl | h1
        · exact List.mem_cons_self _ _
        · by_cases hax : a = x
          · subst hax; exact List.mem_cons_self _ _
          · refine List.mem_cons_of_mem _ ?_
            rw [ih]
            refine ⟨h1, fun hc => ?_⟩
            rcases List.mem_cons.mp hc with h | h
            · exact hax h
            · exact h2 h

theorem dedupFirst_mem [DecidableEq α] (l : List α) (a : α) :
    a ∈ dedupFirst l ↔ a ∈ l := by
  rw [dedupFirst, dedupFirstGo_mem]
  simp

theorem dedupFirstGo_nodup [DecidableEq α] (seen : List α) (l : List α) :
    (dedupFirstGo seen l).Nodup := by
  induction l generalizing seen with
  | nil => simp [dedupFirstGo]
  | cons x xs ih =>
    simp only [dedupFirstGo]
    split
    · exact ih seen
    · refine List.nodup_cons.mpr ⟨?_, ih (x :: seen)⟩
      intro hc
      rw [dedupFirstGo_mem] at hc
      exact hc.2 (List.mem_cons_self _ _)

theorem dedupFirst_nodup [DecidableEq α] (l : List α) : (dedupFirst l).Nodup :=
  dedupFirstGo_nodup [] l

theorem find?_exists_of_mem {p : α → Bool} (l : List α) (a : α)
    (ha : a ∈ l) (hp : p a = true) :
    ∃ b, l.find? p = some b ∧ b ∈ l ∧ p b = true := by
  induction l with
  | nil => cases ha
  | cons x xs ih =>
    by_cases hx : p x = true
    · exact ⟨x, by simp [List.find?, hx], List.mem_cons_self _ _, hx⟩
    · rcases List.mem_cons.mp ha with rfl | ha
      · exact absurd hp hx
      · obtain ⟨b, hb1, hb2, hb3⟩ := ih ha
        refine ⟨b, ?_, List.mem_cons_of_mem _ hb2, hb3⟩
        simp only [List.find?]
        rw [Bool.not_eq_true] at hx
        rw [hx]
        exact hb1

theorem find?_none_of_all {p : α → Bool} (l : List α)
    (h : ∀ a ∈ l, p a = false) : l.find? p = none := by
  induction l with
  | nil => rfl
  | cons x xs ih =>
    simp only [List.find?]
    rw [h x (List.mem_cons_self _ _)]
    exact ih (fun a ha => h a (List.mem_cons_of_mem _ ha))

/-- C5: for every URL set, find_cnc_url returns some member containing
the substring 5050/index.php whenever one exists and None when no
member does; likewise find_download_url for a case-insensitive pattern
match.  Both lookups are total: absence yields None, not an error. -/
theorem find_cnc_and_download_url_total (urls : List PyStr) (pattern : PyStr) :
    ((∃ u ∈ urls, containsSub (ofStr "5050/index.php") u = true) →
      ∃ u, find_cnc_url urls = some u ∧ u ∈ urls ∧
        containsSub (ofStr "5050/index.php") u = true) ∧
    ((∀ u ∈ urls, containsSub (ofStr "5050/index.php") u = false) →
      find_cnc_url urls = none) ∧
    ((∃ u ∈ urls, containsSub (lowerStr pattern) (lowerStr u) = true) →
      ∃ u, find_download_url urls pattern = some u ∧ u ∈ urls ∧
        containsSub (lowerStr pattern) (lowerStr u) = true) ∧
    ((∀ u ∈ urls, containsSub (lowerStr pattern) (lowerStr u) = false) →
      find_download_url urls pattern = none) := by
  refine ⟨?_, ?_, ?_, ?_⟩
  · rintro ⟨u, hu, hc⟩
    exact find?_exists_of_mem urls u hu hc
  · intro h
    exact find?_none_of_all urls h
  · rintro ⟨u, hu, hc⟩
    exact find?_exists_of_mem urls u hu hc
  · intro h
    exact find?_none_of_all urls h

/-- C5 witness: the spec scenario.  A set containing the URL
http://evil.com/5050/index.php and two unrelated URLs yields exactly a
matching member; a set with no match yields None; find_download_url
finds http://x.com/payload.ISO for the pattern iso case-insensitively. -/
theorem find_cnc_and_download_url_total_witness :
    (∃ u, find_cnc_url
        [ofStr "http://evil.com/5050/index.php", ofStr "http://a.com/x",
         ofStr "https://b.com/y"] = some u ∧
      u ∈ [ofStr "http://evil.com/5050/index.php", ofStr "http://a.com/x",
         ofStr "https://b.com/y"] ∧
      containsSub (ofStr "5050/index.php") u = true) ∧
    find_cnc_url [ofStr "http://a.com/x"] = none ∧
    (∃ u, find_download_url [ofStr "http://x.com/payload.ISO"] (ofStr "iso") = some u ∧
      u ∈ [ofStr "http://x.com/payload.ISO"] ∧
      containsSub (lowerStr (ofStr "iso")) (lowerStr u) = true) := by
  refine ⟨?_, ?_, ?_⟩
  · exact (find_cnc_and_download_url_total
      [ofStr "http://evil.com/5050/index.php", ofStr "http://a.com/x",
       ofStr "https://b.com/y"] (ofStr "iso")).1
      ⟨ofStr "http://evil.com/5050/index.php", by decide, by decide⟩
  · exact (find_cnc_and_download_url_total [ofStr "http://a.com/x"] (ofStr "iso")).2.1
      (by decide)
  · exact (find_cnc_and_download_url_total [ofStr "http://x.com/payload.ISO"]
      (ofStr "iso")).2.2.1 ⟨ofStr "http://x.com/payload.ISO", by decide, by decide⟩

/-- C1: the stage engine iterates the steps in insertion order: a
gated-out step leaves no trace; an executed step has its result
appended; a failed result whose stage is not the fault-tolerant
process_iso stage ends the recorded history at that result and no
later step is ever attempted; a failed process_iso result and a
successful result let the remaining steps run on the extended
context. -/
theorem pipeline_execute_fatality (step : PipelineStep) (rest : List PipelineStep)
    (ctx : PipelineContext) :
    (step.can_execute ctx = false → runSteps (step :: rest) ctx = runSteps rest ctx) ∧
    (step.can_execute ctx = true →
      ((step.execute ctx).1.success = false →
          (step.execute ctx).1.stage ≠ PipelineStage.processIso →
          runSteps (step :: rest) ctx =
            add_stage_result (step.execute ctx).2 (step.execute ctx).1 ∧
          (runSteps (step :: rest) ctx).stage_results =
            ((step.execute ctx).2).stage_results ++ [(step.execute ctx).1]) ∧
      ((step.execute ctx).1.success = false →
          (step.execute ctx).1.stage = PipelineStage.processIso →
          runSteps (step :: rest) ctx =
            runSteps rest (add_stage_result (step.execute ctx).2 (step.execute ctx).1)) ∧
      ((step.execute ctx).1.success = true →
          runSteps (step :: rest) ctx =
            runSteps rest (add_stage_result (step.execute ctx).2 (step.execute ctx).1))) := by
  constructor
  · intro h
    simp [runSteps, h]
  · intro hc
    refine ⟨?_, ?_, ?_⟩
    · intro hs hst
      constructor
      · simp [runSteps, hc, hs, hst]
      · simp [runSteps, hc, hs, hst, add_stage_result]
    · intro hs hst
      simp [runSteps, hc, hs, hst]
    · intro hs
      simp [runSteps, hc, hs]

/-- C1 witness: for the fixture pipeline A succeeds, B fails fatally,
C succeeds, the recorded history is exactly the two results of A and B
and C is never attempted. -/
theorem pipeline_execute_fatality_witness :
    resB.success = false ∧ resB.stage ≠ PipelineStage.processIso ∧
    (runSteps [stepA, stepB, stepC] ctx0).stage_results = [resA, resB] := by
  refine ⟨by decide, by decide, ?_⟩
  have h1 := (pipeline_execute_fatality stepA [stepB, stepC] ctx0).2 rfl
  have e1 : runSteps [stepA, stepB, stepC] ctx0 =
      runSteps [stepB, stepC] (add_stage_result ctx0 resA) := h1.2.2 rfl
  have h2 := (pipeline_execute_fatality stepB [stepC]
      (add_stage_result ctx0 resA)).2 rfl
  have e2 := (h2.1 rfl (by decide)).2
  rw [e1, e2]
  rfl

/-- C4: the summary generator assigns the threat level and malware
family deterministically from the accumulated metadata: high and
Grandoreiro exactly when payload-library information was recorded and
at least one URL was found, medium and Suspicious exactly when only
URLs were found, low and Unknown exactly when no URL was found. -/
theorem generate_summary_threat_level (ctx : PipelineContext) :
    ((generate_summary ctx).metadata.threat_level = ofStr "high" ∧
        (generate_summary ctx).metadata.malware_family = ofStr "Grandoreiro" ↔
      ctx.metadata.dll_info.isSome = true ∧ ctx.metadata.urls_found ≠ []) ∧
    ((generate_summary ctx).metadata.threat_level = ofStr "medium" ∧
        (generate_summary ctx).metadata.malware_family = ofStr "Suspicious" ↔
      ctx.metadata.dll_info.isSome = false ∧ ctx.metadata.urls_found ≠ []) ∧
    ((generate_summary ctx).metadata.threat_level = ofStr "low" ∧
        (generate_summary ctx).metadata.malware_family = ofStr "Unknown" ↔
      ctx.metadata.urls_found = []) := by
  by_cases h1 : ctx.metadata.dll_info.isSome = true <;>
    by_cases h2 : ctx.metadata.urls_found = []
  · refine ⟨?_, ?_, ?_⟩ <;> simp [generate_summary, h1, h2] <;> decide
  · refine ⟨?_, ?_, ?_⟩ <;> simp [generate_summary, h1, h2] <;> decide
  · rw [Bool.not_eq_true] at h1
    refine ⟨?_, ?_, ?_⟩ <;> simp [generate_summary, h1, h2] <;> decide
  · rw [Bool.not_eq_true] at h1
    refine ⟨?_, ?_, ?_⟩ <;> simp [generate_summary, h1, h2] <;> decide

theorem resultStatusOk_create_result (stage : PipelineStage) (success : Bool)
    (err : Option PyStr) (arts : List PyStr) (dur : Option Nat) :
    resultStatusOk (create_result stage success err arts dur) := by
  cases success <;> simp [resultStatusOk, create_result]

/-- C10: a result built by create_result has status completed exactly
when its success flag is true and failed exactly when it is false, and
is never pending, running or skipped; consequently every result
recorded by the engine from steps that build their results through
create_result (and do not touch the recorded history themselves, as no
concrete step does) satisfies the same invariant. -/
theorem recorded_results_status_invariant :
    (∀ (stage : PipelineStage) (success : Bool) (err : Option PyStr)
        (arts : List PyStr) (dur : Option Nat),
      resultStatusOk (create_result stage success err arts dur)) ∧
    (∀ (steps : List PipelineStep) (ctx : PipelineContext),
      (∀ st ∈ steps, ∀ c,
        (∃ stage success err arts dur,
            (st.execute c).1 = create_result stage success err arts dur) ∧
        ((st.execute c).2).stage_results = c.stage_results) →
      (∀ r ∈ ctx.stage_results, resultStatusOk r) →
      ∀ r ∈ (runSteps steps ctx).stage_results, resultStatusOk r) := by
  constructor
  · intro stage success err arts dur
    exact resultStatusOk_create_result stage success err arts dur
  · intro steps
    induction steps with
    | nil =>
      intro ctx _ hctx r hr
      exact hctx r (by simpa [runSteps] using hr)
    | cons st rest ih =>
      intro ctx hsteps hctx r hr
      simp only [runSteps] at hr
      by_cases hc : st.can_execute ctx = true
      · rw [if_pos hc] at hr
        obtain ⟨⟨stg, succ, err, arts, dur, heq⟩, hpres⟩ :=
          hsteps st (List.mem_cons_self _ _) ctx
        have hnew : ∀ r2 ∈ (add_stage_result (st.execute ctx).2
            (st.execute ctx).1).stage_results, resultStatusOk r2 := by
          intro r2 hr2
          simp only [add_stage_result, hpres] at hr2
          rcases List.mem_append.mp hr2 with h | h
          · exact hctx r2 h
          · rcases List.mem_singleton.mp h with rfl
            rw [heq]
            exact resultStatusOk_create_result stg succ err arts dur
        by_cases hf : (st.execute ctx).1.success = false ∧
            (st.execute ctx).1.stage ≠ PipelineStage.processIso
        · rw [if_pos hf] at hr
          exact hnew r hr
        · rw [if_neg hf] at hr
          exact ih (add_stage_result (st.execute ctx).2 (st.execute ctx).1)
            (fun s hs c => hsteps s (List.mem_cons_of_mem _ hs) c) hnew r hr
      · rw [if_neg hc] at hr
        exact ih ctx (fun s hs c => hsteps s (List.mem_cons_of_mem _ hs) c) hctx r hr

/-- C10 witness: the invariant holds of the failed result recorded by
the fixture pipeline. -/
theorem recorded_results_status_invariant_witness : resultStatusOk resB := by
  refine recorded_results_status_invariant.2 [stepA, stepB] ctx0 ?_ ?_ resB ?_
  · intro st hst c
    rcases List.mem_cons.mp hst with rfl | hst
    · exact ⟨⟨PipelineStage.initStage, true, none, [], none, rfl⟩, rfl⟩
    · rcases List.mem_cons.mp hst with rfl | hst
      · exact ⟨⟨PipelineStage.extractZip, false, some (ofStr "boom"), [], none, rfl⟩, rfl⟩
      · cases hst
  · intro r hr
    simp [ctx0] at hr
  · have h : (runSteps [stepA, stepB] ctx0).stage_results = [resA, resB] := rfl
    rw [h]
    exact List.mem_cons_of_mem _ (List.mem_cons_self _ _)

/-- C7 counterexample: with a retention marker present and force
false, the directory is left in place and deletion is skipped, but the
invocation is not a no-op: it first appends a cleanup note to the
session manifest, so the resulting state differs from the input
state. -/
theorem cleanup_skip_not_noop_cex :
    (cleanup_session_temp_dir sessWithMarker true false).1.dirExists = true ∧
    (cleanup_session_temp_dir sessWithMarker true false).2 = CleanupOutcome.skippedDebug ∧
    (cleanup_session_temp_dir sessWithMarker true false).1 ≠ sessWithMarker ∧
    (cleanup_session_temp_dir sessWithMarker true false).1.manifestCleanupLines =
      sessWithMarker.manifestCleanupLines + 1 := by
  decide

/-- C7 amended: cleanup without force skips deletion and leaves the
directory in place exactly when a .debug marker is present (appending
only a cleanup note to the manifest); without a marker, or with force,
the directory is recursively deleted when deletion succeeds; a
deletion failure is caught, leaving the directory and producing only a
logged warning, never an exception (the modelled function is total). -/
theorem cleanup_session_behavior (st : SessionDirState) (rmtreeOk force : Bool) :
    (st.dirExists = true → force = false → st.debugFiles ≠ [] →
      (cleanup_session_temp_dir st rmtreeOk force).1.dirExists = true ∧
      (cleanup_session_temp_dir st rmtreeOk force).1.debugFiles = st.debugFiles ∧
      (cleanup_session_temp_dir st rmtreeOk force).2 = CleanupOutcome.skippedDebug) ∧
    (st.dirExists = true → st.debugFiles = [] → rmtreeOk = true →
      (cleanup_session_temp_dir st rmtreeOk force).1.dirExists = false ∧
      (cleanup_session_temp_dir st rmtreeOk force).2 = CleanupOutcome.removed) ∧
    (st.dirExists = true → force = true → rmtreeOk = true →
      (cleanup_session_temp_dir st rmtreeOk force).1.dirExists = false ∧
      (cleanup_session_temp_dir st rmtreeOk force).2 = CleanupOutcome.removed) ∧
    (st.dirExists = true → rmtreeOk = false → (force = true ∨ st.debugFiles = []) →
      (cleanup_session_temp_dir st rmtreeOk force).1.dirExists = true ∧
      (cleanup_session_temp_dir st rmtreeOk force).2 = CleanupOutcome.warnedFailure) := by
  refine ⟨?_, ?_, ?_, ?_⟩
  · intro hd hf hdbg
    by_cases hm : st.manifestExists = true <;>
      simp [cleanup_session_temp_dir, hd, hf, hdbg, hm]
  · intro hd hdbg hok
    by_cases hm : st.manifestExists = true <;> cases force <;>
      simp [cleanup_session_temp_dir, hd, hdbg, hok, hm]
  · intro hd hf hok
    by_cases hm : st.manifestExists = true <;>
      simp [cleanup_session_temp_dir, hd, hf, hok, hm]
  · intro hd hok hcase
    rcases hcase with hf | hdbg
    · by_cases hm : st.manifestExists = true <;>
        simp [cleanup_session_temp_dir, hd, hf, hok, hm]
    · by_cases hm : st.manifestExists = true <;> cases force <;>
        simp [cleanup_session_temp_dir, hd, hdbg, hok, hm]

/-- C7 witness: the marked fixture directory survives an unforced
cleanup, is removed by a forced one, and a failing deletion of an
unmarked directory yields only a warning. -/
theorem cleanup_session_behavior_witness :
    (cleanup_session_temp_dir sessWithMarker true false).1.dirExists = true ∧
    (cleanup_session_temp_dir sessWithMarker true true).2 = CleanupOutcome.removed ∧
    (cleanup_session_temp_dir { sessWithMarker with debugFiles := [] } false false).2 =
      CleanupOutcome.warnedFailure :=
  ⟨((cleanup_session_behavior sessWithMarker true false).1 rfl rfl (by decide)).1,
   ((cleanup_session_behavior sessWithMarker true true).2.2.1 rfl rfl rfl).2,
   ((cleanup_session_behavior { sessWithMarker with debugFiles := [] }
      false false).2.2.2 rfl rfl (Or.inr rfl)).2⟩

/-- C8 counterexample: the code keeps dot and hyphen characters, which
are not word characters, so the produced name differs from the name
prescribed by the claim (every non-word character replaced by an
underscore) already on the URL a.b. -/
theorem get_cache_path_cex :
    get_cache_name (ofStr "a.b") = ofStr "a.b" ∧
    specCacheName (ofStr "a.b") = ofStr "a_b" ∧
    get_cache_name (ofStr "a.b") ≠ specCacheName (ofStr "a.b") := by
  decide

/-- C8 amended: the cache file name is deterministic in the URL alone
and is obtained by replacing every character that is neither a word
character nor a hyphen nor a dot with an underscore, truncated to at
most 100 characters; consequently every produced character is a word
character, a hyphen or a dot. -/
theorem get_cache_name_sanitized (url : PyStr) :
    get_cache_name url = (url.map sanitizeChar).take 100 ∧
    (get_cache_name url).length ≤ 100 ∧
    (∀ c ∈ get_cache_name url, (isWordChar c || c == 45 || c == 46) = true) := by
  refine ⟨rfl, ?_, ?_⟩
  · rw [get_cache_name, List.length_take]
    exact min_le_left _ _
  · intro c hc
    rw [get_cache_name] at hc
    obtain ⟨a, _, rfl⟩ := List.mem_map.mp (List.mem_of_mem_take hc)
    by_cases h : (isWordChar a || a == 45 || a == 46) = true
    · rw [sanitizeChar, if_pos h]
      exact h
    · rw [sanitizeChar, if_neg h]
      decide

/-- C8 witness: the sanitizer properties at a concrete URL and a
concrete produced character. -/
theorem get_cache_name_sanitized_witness :
    (get_cache_name (ofStr "http://a.com/x")).length ≤ 100 ∧
    (isWordChar 104 || 104 == 45 || 104 == 46) = true :=
  ⟨(get_cache_name_sanitized (ofStr "http://a.com/x")).2.1,
   (get_cache_name_sanitized (ofStr "http://a.com/x")).2.2 104 (by decide)⟩

/-- C9 counterexample: download_iso writes response.text re-encoded as
UTF-8, not the raw body: a latin-1 response whose body is the single
byte 255 is written as the two bytes 195, 191. -/
theorem download_iso_verbatim_cex :
    (download_iso (ofStr "http://x.com/a.iso") (latin1Decode [255])).2 = [195, 191] ∧
    (download_iso (ofStr "http://x.com/a.iso") (latin1Decode [255])).2 ≠ [255] := by
  decide

theorem takeWhile_append_of_all {p : Nat → Bool} (l1 l2 : List Nat)
    (h : ∀ x ∈ l1, p x = true) :
    (l1 ++ l2).takeWhile p = l1 ++ l2.takeWhile p := by
  induction l1 with
  | nil => simp
  | cons x xs ih =>
    simp only [List.cons_append, List.takeWhile_cons]
    rw [h x (List.mem_cons_self _ _)]
    simp [ih (fun a ha => h a (List.mem_cons_of_mem _ ha))]

theorem utf8Encode_ascii (body : List Nat) (h : ∀ b ∈ body, b < 128) :
    utf8Encode body = body := by
  induction body with
  | nil => rfl
  | cons b rest ih =>
    have hb : b < 128 := h b (List.mem_cons_self _ _)
    show (utf8EncodeChar b ++ (rest.map utf8EncodeChar).flatten) = b :: rest
    rw [utf8EncodeChar, if_pos hb,
      show (rest.map utf8EncodeChar).flatten = utf8Encode rest from rfl,
      ih (fun a ha => h a (List.mem_cons_of_mem _ ha))]
    rfl

/-- C9 amended: the file written by download_iso holds the UTF-8
encoding of the decoded response text; for a latin-1 response this
equals the raw body byte for byte exactly on ASCII bodies (as the
base64 payloads of this protocol are); the output file name is the
segment of the URL after its last slash. -/
theorem download_iso_written_ascii (url : PyStr) (body : List Nat)
    (h : ∀ b ∈ body, b < 128) :
    (download_iso url (latin1Decode body)).2 = body ∧
    (download_iso url (latin1Decode body)).1 = lastSegment url ∧
    (∀ pre seg : PyStr, 47 ∉ seg → lastSegment (pre ++ 47 :: seg) = seg) ∧
    (∀ u : PyStr, 47 ∉ u → lastSegment u = u) := by
  refine ⟨?_, rfl, ?_, ?_⟩
  · show utf8Encode (latin1Decode body) = body
    rw [latin1Decode]
    exact utf8Encode_ascii body h
  · intro pre seg hseg
    have hall : ∀ x ∈ seg.reverse, (x != 47) = true := by
      intro x hx
      have : x ∈ seg := List.mem_reverse.mp hx
      simp only [bne_iff_ne, ne_eq]
      intro hx47
      exact hseg (hx47 ▸ this)
    rw [lastSegment, List.reverse_append, List.reverse_cons, List.append_assoc,
      takeWhile_append_of_all seg.reverse _ hall]
    simp [List.takeWhile_cons]
  · intro u hu
    have hall : ∀ x ∈ u.reverse, (x != 47) = true := by
      intro x hx
      have : x ∈ u := List.mem_reverse.mp hx
      simp only [bne_iff_ne, ne_eq]
      intro hx47
      exact hu (hx47 ▸ this)
    rw [lastSegment]
    have := takeWhile_append_of_all u.reverse [] hall
    simp only [List.append_nil, List.takeWhile_nil] at this
    rw [this, List.reverse_reverse]

/-- C9 witness: an ASCII base64 body is persisted verbatim and the
file name is the last URL segment. -/
theorem download_iso_written_ascii_witness :
    (download_iso (ofStr "http://x.com/a.iso") (latin1Decode (ofStr "aGVsbG8="))).2 =
      ofStr "aGVsbG8=" ∧
    (download_iso (ofStr "http://x.com/a.iso") (latin1Decode (ofStr "aGVsbG8="))).1 =
      lastSegment (ofStr "http://x.com/a.iso") := by
  have h := download_iso_written_ascii (ofStr "http://x.com/a.iso")
    (ofStr "aGVsbG8=") (by decide)
  exact ⟨h.1, h.2.1⟩

/-- C2 counterexample: the scanner strips surrounding spaces after the
minimum-length match, so the byte input a b space space with minimum
length 4 returns the two-character string ab, shorter than the
minimum. -/
theorem extract_strings_min_length_cex :
    [97, 98] ∈ extract_strings [97, 98, 32, 32] 4 ∧
    ([97, 98] : PyStr).length < 4 := by
  decide

/-- C2 amended: every returned string is nonempty but can be shorter
than the configured minimum length, because surrounding spaces are
stripped from each matched run after the length test; the result list
contains no duplicate entries, and it holds exactly the candidate
strings of the two scanning passes with the first occurrence kept. -/
theorem extract_strings_nodup_nonempty (data : List Nat) (minLength : Nat) :
    (extract_strings data minLength).Nodup ∧
    (∀ s ∈ extract_strings data minLength, 1 ≤ s.length) ∧
    (∀ s, s ∈ extract_strings data minLength ↔ s ∈ extractCandidates data minLength) := by
  refine ⟨dedupFirst_nodup _, ?_, fun s => dedupFirst_mem _ s⟩
  intro s hs
  rw [extract_strings, dedupFirst_mem, extractCandidates] at hs
  have hne : (!s.isEmpty) = true := by
    rcases List.mem_append.mp hs with h | h
    · exact (List.mem_filter.mp h).2
    · exact (List.mem_filter.mp h).2
  rcases s with _ | ⟨a, as⟩
  · simp at hne
  · simp

/-- C2 witness: the deduplication and nonemptiness facts at the
concrete counterexample input. -/
theorem extract_strings_nodup_nonempty_witness :
    (extract_strings [97, 98, 32, 32] 4).Nodup ∧
    1 ≤ ([97, 98] : PyStr).length ∧
    ([97, 98] ∈ extract_strings [97, 98, 32, 32] 4 ↔
      [97, 98] ∈ extractCandidates [97, 98, 32, 32] 4) := by
  have h := extract_strings_nodup_nonempty [97, 98, 32, 32] 4
  exact ⟨h.1, h.2.1 [97, 98] (by decide), h.2.2 [97, 98]⟩

theorem byteChunks_induction {P : List Nat → Prop} (h0 : P []) (h1 : ∀ a, P [a])
    (h2 : ∀ a b, P [a, b]) (h3 : ∀ a b c rest, P rest → P (a :: b :: c :: rest)) :
    ∀ l, P l
  | [] => h0
  | [a] => h1 a
  | [a, b] => h2 a b
  | a :: b :: c :: rest => h3 a b c rest (byteChunks_induction h0 h1 h2 h3 rest)

theorem b64index_b64chr_fin : ∀ v : Fin 64, b64index (b64chr v.val) = some v.val := by
  decide

theorem b64index_b64chr (v : Nat) (h : v < 64) : b64index (b64chr v) = some v :=
  b64index_b64chr_fin ⟨v, h⟩

theorem b64chr_ne_pad (v : Nat) (h : v < 64) : b64chr v ≠ 61 := by
  intro h61
  have h2 := b64index_b64chr v h
  rw [h61] at h2
  have h3 : b64index 61 = none := by decide
  rw [h3] at h2
  cases h2

theorem b64chr_good (v : Nat) (h : v < 64) :
    (b64index (b64chr v)).isSome = true ∧ b64chr v ≠ 61 :=
  ⟨by rw [b64index_b64chr v h]; rfl, b64chr_ne_pad v h⟩

theorem b64encode_shape : ∀ l : List Nat,
    b64encode l = encodeData l ++ List.replicate (padLen l) 61 := by
  intro l
  induction l using byteChunks_induction with
  | h0 => rfl
  | h1 a => rfl
  | h2 a b => rfl
  | h3 a b c rest ih => simp [b64encode, encodeData, padLen, ih]

theorem encodeData_chars : ∀ l : List Nat, (∀ b ∈ l, b < 256) →
    ∀ c ∈ encodeData l, (b64index c).isSome = true ∧ c ≠ 61 := by
  intro l
  induction l using byteChunks_induction with
  | h0 => intro _ c hc; cases hc
  | h1 a =>
    intro h c hc
    have ha : a < 256 := h a (List.mem_cons_self _ _)
    simp only [encodeData, List.mem_cons, List.not_mem_nil, or_false] at hc
    rcases hc with rfl | rfl
    · exact b64chr_good _ (by omega)
    · exact b64chr_good _ (by omega)
  | h2 a b =>
    intro h c hc
    have ha : a < 256 := h a (List.mem_cons_self _ _)
    have hb : b < 256 := h b (List.mem_cons_of_mem _ (List.mem_cons_self _ _))
    simp only [encodeData, List.mem_cons, List.not_mem_nil, or_false] at hc
    rcases hc with rfl | rfl | rfl
    · exact b64chr_good _ (by omega)
    · exact b64chr_good _ (by omega)
    · exact b64chr_good _ (by omega)
  | h3 a b c rest ih =>
    intro h x hx
    have ha : a < 256 := h a (List.mem_cons_self _ _)
    have hb : b < 256 := h b (List.mem_cons_of_mem _ (List.mem_cons_self _ _))
    have hc : c < 256 :=
      h c (List.mem_cons_of_mem _ (List.mem_cons_of_mem _ (List.mem_cons_self _ _)))
    simp only [encodeData, List.mem_cons] at hx
    rcases hx with rfl | rfl | rfl | rfl | hx
    · exact b64chr_good _ (by omega)
    · exact b64chr_good _ (by omega)
    · exact b64chr_good _ (by omega)
    · exact b64chr_good _ (by omega)
    · exact ih (fun y hy => h y (List.mem_cons_of_mem _
        (List.mem_cons_of_mem _ (List.mem_cons_of_mem _ hy)))) x hx

theorem encodeData_padLen : ∀ l : List Nat,
    padLen l = (4 - (encodeData l).length % 4) % 4 ∧ (encodeData l).length % 4 ≠ 1 := by
  intro l
  induction l using byteChunks_induction with
  | h0 => exact ⟨rfl, by decide⟩
  | h1 a =>
    refine ⟨rfl, ?_⟩
    have hl : (encodeData [a]).length = 2 := rfl
    rw [hl]
    decide
  | h2 a b =>
    refine ⟨rfl, ?_⟩
    have hl : (encodeData [a, b]).length = 3 := rfl
    rw [hl]
    decide
  | h3 a b c rest ih =>
    have h1 := ih.1
    have h2 := ih.2
    simp only [encodeData, padLen, List.length_cons]
    constructor <;> omega

theorem decodeQuads_encodeData : ∀ l : List Nat, (∀ b ∈ l, b < 256) →
    decodeQuads (encodeData l) = l := by
  intro l
  induction l using byteChunks_induction with
  | h0 => intro _; rfl
  | h1 a =>
    intro h
    have ha : a < 256 := h a (List.mem_cons_self _ _)
    have e1 : sextet (b64chr (a / 4)) = a / 4 := by
      rw [sextet, b64index_b64chr _ (by omega)]; rfl
    have e2 : sextet (b64chr (a % 4 * 16)) = a % 4 * 16 := by
      rw [sextet, b64index_b64chr _ (by omega)]; rfl
    show decodeQuads [b64chr (a / 4), b64chr (a % 4 * 16)] = [a]
    simp only [decodeQuads, e1, e2, List.cons.injEq, and_true]
    omega
  | h2 a b =>
    intro h
    have ha : a < 256 := h a (List.mem_cons_self _ _)
    have hb : b < 256 := h b (List.mem_cons_of_mem _ (List.mem_cons_self _ _))
    have e1 : sextet (b64chr (a / 4)) = a / 4 := by
      rw [sextet, b64index_b64chr _ (by omega)]; rfl
    have e2 : sextet (b64chr (a % 4 * 16 + b / 16)) = a % 4 * 16 + b / 16 := by
      rw [sextet, b64index_b64chr _ (by omega)]; rfl
    have e3 : sextet (b64chr (b % 16 * 4)) = b % 16 * 4 := by
      rw [sextet, b64index_b64chr _ (by omega)]; rfl
    show decodeQuads
      [b64chr (a / 4), b64chr (a % 4 * 16 + b / 16), b64chr (b % 16 * 4)] = [a, b]
    simp only [decodeQuads, e1, e2, e3, List.cons.injEq, and_true]
    constructor <;> omega
  | h3 a b c rest ih =>
    intro h
    have ha : a < 256 := h a (List.mem_cons_self _ _)
    have hb : b < 256 := h b (List.mem_cons_of_mem _ (List.mem_cons_self _ _))
    have hc : c < 256 :=
      h c (List.mem_cons_of_mem _ (List.mem_cons_of_mem _ (List.mem_cons_self _ _)))
    have e1 : sextet (b64chr (a / 4)) = a / 4 := by
      rw [sextet, b64index_b64chr _ (by omega)]; rfl
    have e2 : sextet (b64chr (a % 4 * 16 + b / 16)) = a % 4 * 16 + b / 16 := by
      rw [sextet, b64index_b64chr _ (by omega)]; rfl
    have e3 : sextet (b64chr (b % 16 * 4 + c / 64)) = b % 16 * 4 + c / 64 := by
      rw [sextet, b64index_b64chr _ (by omega)]; rfl
    have e4 : sextet (b64chr (c % 64)) = c % 64 := by
      rw [sextet, b64index_b64chr _ (by omega)]; rfl
    have ihr := ih (fun y hy => h y (List.mem_cons_of_mem _
      (List.mem_cons_of_mem _ (List.mem_cons_of_mem _ hy))))
    show decodeQuads (b64chr (a / 4) :: b64chr (a % 4 * 16 + b / 16) ::
      b64chr (b % 16 * 4 + c / 64) :: b64chr (c % 64) :: encodeData rest) =
      a :: b :: c :: rest
    simp only [decodeQuads, e1, e2, e3, e4, List.cons.injEq, ihr, and_true]
    refine ⟨by omega, by omega, by omega⟩

theorem b64decode_shape (data : List Nat) (p : Nat)
    (hdata : ∀ c ∈ data, (b64index c).isSome = true ∧ c ≠ 61) :
    b64decode (data ++ List.replicate p 61) =
      if p = (4 - data.length % 4) % 4 ∧ data.length % 4 ≠ 1
      then some (decodeQuads data) else none := by
  have hfilter : (data ++ List.replicate p 61).filter
      (fun c => (b64index c).isSome || c == 61) = data ++ List.replicate p 61 := by
    rw [List.filter_eq_self]
    intro a ha
    rcases List.mem_append.mp ha with h | h
    · rw [(hdata a h).1]
      rfl
    · rw [List.eq_of_mem_replicate h]
      simp
  have htake : (data ++ List.replicate p 61).takeWhile (fun c => c != 61) = data := by
    rw [takeWhile_append_of_all data _ (fun c hc => by
      simp only [bne_iff_ne, ne_eq]
      exact (hdata c hc).2)]
    cases p with
    | zero => simp
    | succ n => simp [List.replicate_succ, List.takeWhile_cons]
  have hdrop : (data ++ List.replicate p 61).drop data.length = List.replicate p 61 :=
    List.drop_left data _
  have hall : (List.replicate p 61).all (fun c => c == 61) = true := by
    rw [List.all_eq_true]
    intro c hc
    rw [List.eq_of_mem_replicate hc]
    rfl
  simp only [b64decode, hfilter, htake, hdrop, hall, List.length_replicate, true_and]

theorem b64decode_b64encode (l : List Nat) (h : ∀ b ∈ l, b < 256) :
    b64decode (b64encode l) = some l := by
  rw [b64encode_shape l, b64decode_shape (encodeData l) (padLen l) (encodeData_chars l h),
    if_pos (encodeData_padLen l), decodeQuads_encodeData l h]

theorem b64chr_lt_128 (v : Nat) : b64chr v < 128 := by
  rw [b64chr]
  split_ifs <;> omega

theorem b64encode_lt_128 : ∀ l : List Nat, ∀ c ∈ b64encode l, c < 128 := by
  intro l
  induction l using byteChunks_induction with
  | h0 => intro c hc; cases hc
  | h1 a =>
    intro c hc
    simp only [b64encode, List.mem_cons, List.not_mem_nil, or_false] at hc
    rcases hc with rfl | rfl | rfl | rfl <;> first | exact b64chr_lt_128 _ | omega
  | h2 a b =>
    intro c hc
    simp only [b64encode, List.mem_cons, List.not_mem_nil, or_false] at hc
    rcases hc with rfl | rfl | rfl | rfl <;> first | exact b64chr_lt_128 _ | omega
  | h3 a b c rest ih =>
    intro x hx
    simp only [b64encode, List.mem_cons] at hx
    rcases hx with rfl | rfl | rfl | rfl | hx
    · exact b64chr_lt_128 _
    · exact b64chr_lt_128 _
    · exact b64chr_lt_128 _
    · exact b64chr_lt_128 _
    · exact ih x hx

/-- C3 counterexample: the input of four hash characters is not valid
base64, yet decode_iso does not raise on it: with the validate=False
default of b64decode, non-alphabet characters are discarded before
decoding, so both passes succeed and produce empty output. -/
theorem decode_iso_not_fatal_cex :
    isStrictBase64 (ofStr "####") = false ∧
    decode_iso (ofStr "####") = some ([], []) := by
  decide

/-- C3 amended: applying the two-pass decoder to the double base64
encoding of any byte string reproduces exactly that byte string; a
malformed input is fatal only when, after the lenient decoder discards
characters outside the base64 alphabet, the residue has an invalid
length or padding, so not every invalid-base64 input raises. -/
theorem decode_iso_roundtrip (l : List Nat) (h : ∀ b ∈ l, b < 256) :
    decode_iso (b64encode (b64encode l)) = some (b64encode l, l) := by
  have h2 : ∀ b ∈ b64encode l, b < 256 := fun b hb => by
    have := b64encode_lt_128 l b hb
    omega
  have hascii : (b64encode (b64encode l)).any (fun c => 128 ≤ c) = false := by
    rw [List.any_eq_false]
    intro c hc
    have := b64encode_lt_128 (b64encode l) c hc
    simp only [decide_eq_true_eq]
    omega
  simp [decode_iso, hascii, b64decode_b64encode (b64encode l) h2,
    b64decode_b64encode l h]

/-- C3 witness: the round trip at a concrete byte string. -/
theorem decode_iso_roundtrip_witness :
    decode_iso (b64encode (b64encode [71, 114, 97, 110])) =
      some (b64encode [71, 114, 97, 110], [71, 114, 97, 110]) :=
  decode_iso_roundtrip [71, 114, 97, 110] (by decide)

theorem applyExclusion_subset (excl : Option (List PyStr)) (files : List PyStr)
    (f : PyStr) (hf : f ∈ applyExclusion excl files) : f ∈ files := by
  cases excl with
  | none => exact hf
  | some pats =>
    by_cases hp : pats.isEmpty = true
    · simpa [applyExclusion, hp] using hf
    · simp only [applyExclusion, if_neg hp] at hf
      exact (List.mem_filter.mp hf).1

theorem applyExclusion_excludes (pats : List PyStr) (files : List PyStr) (f : PyStr)
    (hf : f ∈ applyExclusion (some pats) files) :
    ∀ p ∈ pats, containsSub (lowerStr p) (lowerStr f) = false := by
  intro p hp
  by_cases hp0 : pats.isEmpty = true
  · cases pats with
    | nil => cases hp
    | cons q qs => simp at hp0
  · simp only [applyExclusion, if_neg hp0] at hf
    have h2 := (List.mem_filter.mp hf).2
    rw [Bool.not_eq_true'] at h2
    have h3 := List.any_eq_false.mp h2 p hp
    exact Bool.eq_false_iff.mpr h3

/-- C6: when the installer script contains a custom action carrying
the malicious entry-point signature whose resource key (not the benign
system action binary, which maliciousKeys already excludes) resolves
to an existing file under the Binary subfolder, find_dll_files returns
exactly the files resolved from the signature-matched keys, and every
returned file comes from a signature-matched key, never from an action
without the signature; when the signature search resolves no file, it
returns the files with the .dll extension instead; in either case
every file whose name contains an exclusion pattern case-insensitively
is removed. -/
theorem find_dll_files_signature_selection (d : MsiDirectory)
    (excl : Option (List PyStr)) :
    ((maliciousKeys d.wxsContents).filter (fun k => d.binaryNames.contains k) ≠ [] →
      find_dll_files d excl =
        applyExclusion excl
          ((maliciousKeys d.wxsContents).filter (fun k => d.binaryNames.contains k)) ∧
      ∀ f ∈ find_dll_files d excl, f ∈ maliciousKeys d.wxsContents) ∧
    ((maliciousKeys d.wxsContents).filter (fun k => d.binaryNames.contains k) = [] →
      find_dll_files d excl = applyExclusion excl d.dllNames) ∧
    (∀ pats, excl = some pats → ∀ f ∈ find_dll_files d excl, ∀ p ∈ pats,
      containsSub (lowerStr p) (lowerStr f) = false) := by
  refine ⟨?_, ?_, ?_⟩
  · intro hne
    have hempty : ((maliciousKeys d.wxsContents).filter
        (fun k => d.binaryNames.contains k)).isEmpty = false := by
      cases h : (maliciousKeys d.wxsContents).filter (fun k => d.binaryNames.contains k) with
      | nil => exact absurd h hne
      | cons x xs => rfl
    have hcond : ¬(((maliciousKeys d.wxsContents).filter
        (fun k => d.binaryNames.contains k)).isEmpty = true) := by
      rw [hempty]
      exact Bool.false_ne_true
    constructor
    · simp only [find_dll_files]
      rw [if_neg hcond]
    · intro f hf
      simp only [find_dll_files] at hf
      rw [if_neg hcond] at hf
      have h1 := applyExclusion_subset excl _ f hf
      exact (List.mem_filter.mp h1).1
  · intro heq
    simp only [find_dll_files]
    rw [heq]
    rfl
  · rintro pats rfl f hf p hp
    simp only [find_dll_files] at hf
    exact applyExclusion_excludes pats _ f hf p hp

set_option maxRecDepth 40000 in
/-- C6 witness: on the fixture script with one signature-matched
action referencing evil.bin and one unrelated action referencing
benign.bin, the selector returns exactly the file of evil.bin, never
benign.bin, and the fallback .dll file is not used. -/
theorem find_dll_files_signature_selection_witness :
    maliciousKeys msiSample.wxsContents = [ofStr "evil.bin"] ∧
    find_dll_files msiSample (some [ofStr "aicustact"]) = [ofStr "evil.bin"] := by
  have hfilter : (maliciousKeys msiSample.wxsContents).filter
      (fun k => msiSample.binaryNames.contains k) = [ofStr "evil.bin"] := by decide
  have h := (find_dll_files_signature_selection msiSample
      (some [ofStr "aicustact"])).1 (by rw [hfilter]; decide)
  refine ⟨by decide, ?_⟩
  rw [h.1, hfilter]
  decide

end Grindoreiro
